import Mathlib

/-!
Verification of the RXbot medical-alert configuration encoder.

The development shallowly embeds the three source files of the repository:
* the `POST` route handler with its pure serializer `formatAlertData`,
* the client-side submission flow `handleSubmit` of the dashboard page,
* the `loadDevices` routine of the database page.

Machine strings are `String` (lists of characters), JS numbers holding
integral values are `Int`, and fallible steps return `Option`/`Except`.
-/

/-! ### Data model (from the route handler source) -/

/-- An alert definition as received by the encode endpoint.  The source
annotates `type` with the static union `"Reminder" | "Medicine"`, but the
request shape admits any string at runtime, so the field is a `String`. -/
structure Alert where
  message : String
  type : String
  isEveryday : Bool
  selectedDays : List String
  hour : String
  minute : String
deriving DecidableEq

/-- The request body of the encode endpoint. -/
structure FormData where
  name : String
  phone : String
  email : String
  medicalInfo : String
  deviceId : Int
  alerts : List Alert
deriving DecidableEq

/-- One element of the `expandedAlerts` array built inside `formatAlertData`. -/
structure ExpandedAlert where
  type : String
  day : String
  hour : String
  minute : String
  message : String
deriving DecidableEq

/-! ### The encoder `formatAlertData` -/

/-- Embedding of JavaScript `s.padStart(2, "0")`. -/
def padTwo (s : String) : String :=
  if 2 ≤ s.length then s else ⟨List.replicate (2 - s.length) '0' ++ s.data⟩

/-- The per-alert body of the `data.alerts.forEach` loop in `formatAlertData`:
the list of records pushed onto `expandedAlerts` for one alert. -/
def expandAlert (alert : Alert) : List ExpandedAlert :=
  let t := if alert.type = "Reminder" then "r" else "m"
  let hour := padTwo alert.hour
  let minute := padTwo alert.minute
  let message := alert.message
  if alert.isEveryday then
    (List.range 7).map (fun day => ⟨t, Nat.repr day, hour, minute, message⟩)
  else
    alert.selectedDays.map (fun day => ⟨t, day, hour, minute, message⟩)

/-- The full `expandedAlerts` array: the `forEach` loop appends each alert's
records in order. -/
def expandedAlerts : List Alert → List ExpandedAlert
  | [] => []
  | a :: as => expandAlert a ++ expandedAlerts as

/-- The template-literal line pushed for one expanded alert. -/
def recordLine (e : ExpandedAlert) : String :=
  e.type ++ "," ++ e.day ++ "," ++ e.hour ++ "," ++ e.minute ++ "," ++ e.message

/-- The `lines` array built by `formatAlertData`, in push order. -/
def formatLines (data : FormData) : List String :=
  Nat.repr (expandedAlerts data.alerts).length
    :: (expandedAlerts data.alerts).map recordLine
    ++ [data.name ++ "," ++ data.phone ++ "," ++ data.email,
        data.medicalInfo,
        Int.repr data.deviceId]

/-- Embedding of JavaScript `lines.join("\n")`. -/
def joinLines : List String → String
  | [] => ""
  | [l] => l
  | l :: l₂ :: ls => l ++ "\n" ++ joinLines (l₂ :: ls)

/-- The serializer `formatAlertData` of the route handler. -/
def formatAlertData (data : FormData) : String :=
  joinLines (formatLines data)

/-! ### The `POST` route handler -/

/-- Outcome of the route handler: a JSON error response with an HTTP status,
or the success response carrying `formattedOutput`. -/
inductive PostResult where
  | error (msg : String) (status : Nat)
  | success (formattedOutput : String)
deriving DecidableEq

/-- The validation-and-encode flow of the `POST` handler.  JS truthiness on
the required fields reads as: a string is falsy exactly when empty, the
number `deviceId` is falsy exactly when zero. -/
def POST (data : FormData) : PostResult :=
  if data.name = "" ∨ data.phone = "" ∨ data.email = "" ∨
      data.medicalInfo = "" ∨ data.deviceId = 0 then
    .error "Missing required fields" 400
  else if data.deviceId < 1 ∨ 100 < data.deviceId then
    .error "Device ID must be between 1 and 100" 400
  else if data.alerts.length = 0 then
    .error "At least one alert is required" 400
  else
    .success (formatAlertData data)

/-! ### The dashboard page: `handleSubmit` (client-side validation) -/

/-- The `Alert` type of the dashboard page, which additionally carries a
generated `id`. -/
structure ClientAlert where
  id : String
  message : String
  type : String
  isEveryday : Bool
  selectedDays : List String
  hour : String
  minute : String
deriving DecidableEq

/-- The alert as it reaches the endpoint inside the JSON body (the extra
`id` field is not part of the endpoint's `FormData` shape). -/
def ClientAlert.toAlert (a : ClientAlert) : Alert :=
  ⟨a.message, a.type, a.isEveryday, a.selectedDays, a.hour, a.minute⟩

/-- Embedding of JavaScript `s.trim()`: strip leading and trailing
whitespace. -/
def jsTrim (s : String) : String :=
  ⟨((s.data.dropWhile Char.isWhitespace).reverse.dropWhile Char.isWhitespace).reverse⟩

/-- Embedding of JavaScript `Number.parseInt(s)`: skip leading whitespace,
read an optional sign and then leading decimal digits; `none` models `NaN`. -/
def jsParseInt (s : String) : Option Int :=
  let cs := s.data.dropWhile Char.isWhitespace
  let neg : Bool := cs.head? = some '-'
  let body := if cs.head? = some '-' ∨ cs.head? = some '+' then cs.tail else cs
  let digits := body.takeWhile Char.isDigit
  match digits with
  | [] => none
  | _ =>
    let n : Nat := digits.foldl (fun acc c => acc * 10 + (c.toNat - '0'.toNat)) 0
    some (if neg then -(n : Int) else (n : Int))

/-- Outcome of `handleSubmit`: a destructive toast (title, description), or
the request that was sent together with the endpoint's response. -/
inductive SubmitResult where
  | rejected (title description : String)
  | submitted (request : FormData) (response : PostResult)
deriving DecidableEq

/-- The validation predicate of the `invalidAlerts` filter inside
`handleSubmit`. -/
def alertInvalid (a : ClientAlert) : Bool :=
  (jsTrim a.message == "") || (!a.isEveryday && a.selectedDays.length == 0)

/-- The submission flow of the dashboard page: the client-side checks in
source order, then the request to the encode endpoint. -/
def handleSubmit (name phone email medicalInfo deviceId : String)
    (alerts : List ClientAlert) : SubmitResult :=
  if name = "" ∨ phone = "" ∨ email = "" ∨ medicalInfo = "" ∨ deviceId = "" then
    .rejected "Missing Information" "Please fill in all required fields."
  else
    match jsParseInt deviceId with
    | none => .rejected "Invalid Device ID" "Device ID must be between 1 and 100."
    | some deviceIdNum =>
      if deviceIdNum < 1 ∨ 100 < deviceIdNum then
        .rejected "Invalid Device ID" "Device ID must be between 1 and 100."
      else if alerts.length = 0 then
        .rejected "No Alerts" "Please add at least one alert."
      else if 0 < (alerts.filter alertInvalid).length then
        .rejected "Invalid Alerts"
          "All alerts must have a message and at least one day selected."
      else
        let formData : FormData :=
          ⟨name, phone, email, medicalInfo, deviceIdNum, alerts.map ClientAlert.toAlert⟩
        .submitted formData (POST formData)

/-! ### The database page: `loadDevices` and `getTotalExpandedAlerts` -/

/-- A persisted device configuration (the `StoredDevice` type of the
database page). -/
structure StoredDevice where
  id : String
  timestamp : String
  name : String
  phone : String
  email : String
  medicalInfo : String
  deviceId : Int
  alerts : List Alert
  formattedOutput : String
deriving DecidableEq

/-- Observable state of the database page: the backing store's raw text, the
displayed device list, and the console log. -/
structure DbPageState where
  storage : Option String
  devices : List StoredDevice
  log : List String
deriving DecidableEq

/-- The `loadDevices` routine: read the stored text, `JSON.parse` it inside
`try`/`catch`, install the parsed list on success, and log on failure.  The
parse step is the injected `parse` argument since `JSON.parse` is a host
primitive; a thrown exception is its `Except.error` case. -/
def loadDevices (parse : String → Except String (List StoredDevice))
    (st : DbPageState) : DbPageState :=
  match st.storage with
  | none => st
  | some stored =>
    match parse stored with
    | .ok parsed => { st with devices := parsed }
    | .error e => { st with log := st.log ++ ["[v0] Error loading devices: " ++ e] }

/-- The `getTotalExpandedAlerts` helper of the database page: the running
total over the alert list. -/
def getTotalExpandedAlerts : List Alert → Nat
  | [] => 0
  | a :: as => (if a.isEveryday then 7 else a.selectedDays.length) + getTotalExpandedAlerts as

/-! ### Spec-side definitions -/

/-- Modelled from the spec: "Expanded alert count for a configuration =
Σ over alerts of (7 if isEveryday else |selectedDays|)". -/
def totalExpandedSpec (alerts : List Alert) : Nat :=
  (alerts.map (fun a => if a.isEveryday then 7 else a.selectedDays.length)).sum

/-- Modelled from the spec: the two-digit zero-padded decimal rendering of a
field value ("hour/minute are two-digit zero-padded, e.g. 9 → 09"). -/
def zeroPad2 (n : Nat) : String :=
  if n < 10 then "0" ++ Nat.repr n else Nat.repr n

/-- Validity of an alert per the spec's data model: non-empty message, a
known category, everyday or a non-empty day set, day codes 0–6, hour 0–23
and minute 0–59 carried as their decimal strings (possibly zero-padded, as
the form inputs produce). -/
def ValidAlert (a : Alert) : Prop :=
  a.message ≠ "" ∧
  (a.type = "Reminder" ∨ a.type = "Medicine") ∧
  (a.isEveryday = true ∨ a.selectedDays ≠ []) ∧
  (∀ d ∈ a.selectedDays, ∃ k ≤ 6, d = Nat.repr k) ∧
  (∃ h ≤ 23, a.hour = Nat.repr h ∨ a.hour = zeroPad2 h) ∧
  (∃ m ≤ 59, a.minute = Nat.repr m ∨ a.minute = zeroPad2 m)

/-- Validity of a device configuration per the spec's data model. -/
def ValidConfig (data : FormData) : Prop :=
  data.name ≠ "" ∧ data.phone ≠ "" ∧ data.email ≠ "" ∧ data.medicalInfo ≠ "" ∧
  1 ≤ data.deviceId ∧ data.deviceId ≤ 100 ∧
  data.alerts ≠ [] ∧ ∀ a ∈ data.alerts, ValidAlert a

/-- A text field that cannot corrupt the wire format: no comma, no newline. -/
def cleanText (s : String) : Prop :=
  ',' ∉ s.data ∧ '\n' ∉ s.data

instance cleanTextDecidable (s : String) : Decidable (cleanText s) :=
  inferInstanceAs (Decidable (',' ∉ s.data ∧ '\n' ∉ s.data))

/-! ### Reference decoder, modelled from the spec

The spec describes the inverse transform used for the round-trip property:
"parsing the serialized output (count, then that many comma-delimited
records, then the contact line, then medical info, then device id)".  The
decoder below follows those words; the repository itself ships no parser. -/

/-- Split a character list at every occurrence of `sep`; the separators are
consumed.  The result always has one more chunk than there are separators. -/
def splitOnChar (sep : Char) : List Char → List (List Char)
  | [] => [[]]
  | c :: cs =>
    if c = sep then [] :: splitOnChar sep cs
    else
      match splitOnChar sep cs with
      | [] => [[c]]
      | chunk :: chunks => (c :: chunk) :: chunks

/-- Big-endian decimal accumulation; fails on any non-digit character. -/
def parseNatFrom (acc : Nat) : List Char → Option Nat
  | [] => some acc
  | c :: cs =>
    if '0' ≤ c ∧ c ≤ '9' then parseNatFrom (acc * 10 + (c.toNat - '0'.toNat)) cs
    else none

/-- Modelled from the spec: read a decimal count ("decimal count of expanded
records"); empty input is not a number. -/
def parseNat : List Char → Option Nat
  | [] => none
  | c :: cs => parseNatFrom 0 (c :: cs)

/-- Modelled from the spec: read the decimal device identifier line. -/
def parseInt (cs : List Char) : Option Int :=
  match cs with
  | [] => none
  | c :: rest =>
    if c = '-' then (parseNat rest).map (fun n => -(n : Int))
    else (parseNat (c :: rest)).map (fun n => (n : Int))

/-- Modelled from the spec: one comma-delimited record line with the fixed
field order `code,day,hour,minute,message`. -/
def parseRecord (cs : List Char) : Option ExpandedAlert :=
  match splitOnChar ',' cs with
  | [c, d, h, m, msg] => some ⟨⟨c⟩, ⟨d⟩, ⟨h⟩, ⟨m⟩, ⟨msg⟩⟩
  | _ => none

/-- Sequence a fallible function over a list, keeping all results. -/
def mapOption (f : α → Option β) : List α → Option (List β)
  | [] => some []
  | x :: xs =>
    match f x with
    | none => none
    | some y =>
      match mapOption f xs with
      | none => none
      | some ys => some (y :: ys)

/-- Everything the spec says the serialized payload determines. -/
structure ParsedPayload where
  records : List ExpandedAlert
  name : String
  phone : String
  email : String
  medicalInfo : String
  deviceId : Int
deriving DecidableEq

/-- Modelled from the spec: parse the serialized output — read the count,
then that many comma-delimited record lines, then the contact line
`name,phone,email`, then the medical-info line, then the device-id line. -/
def parseFormatted (s : String) : Option ParsedPayload :=
  match splitOnChar '\n' s.data with
  | [] => none
  | countCs :: rest =>
    match parseNat countCs with
    | none => none
    | some n =>
      match mapOption parseRecord (rest.take n), rest.drop n with
      | some recs, [contactCs, medCs, devCs] =>
        match splitOnChar ',' contactCs, parseInt devCs with
        | [nm, ph, em], some dev => some ⟨recs, ⟨nm⟩, ⟨ph⟩, ⟨em⟩, ⟨medCs⟩, dev⟩
        | _, _ => none
      | _, _ => none

/-! ### Decimal rendering, structurally -/

/-- Structural form of `Nat.repr`: big-endian decimal digits. -/
def reprAux (n : Nat) : List Char :=
  if _h : n < 10 then [Nat.digitChar n]
  else reprAux (n / 10) ++ [Nat.digitChar (n % 10)]
decreasing_by exact Nat.div_lt_self (by omega) (by omega)

/-! ### Sample configurations used by the witnesses -/

/-- A concrete everyday alert (the spec's worked example). -/
def sampleEveryday : Alert :=
  ⟨"Take pill", "Medicine", true, [], "9", "0"⟩

/-- A concrete two-day reminder alert. -/
def sampleTwoDay : Alert :=
  ⟨"Walk the dog", "Reminder", false, ["1", "3"], "08", "30"⟩

/-- A concrete valid configuration. -/
def sampleData : FormData :=
  ⟨"John Doe", "555-123-4567", "john@example.com", "Diabetic - insulin at night",
   5, [sampleEveryday, sampleTwoDay]⟩

/-! ### Lemmas: strings and decimal rendering -/

theorem string_data_inj {s t : String} (h : s.data = t.data) : s = t := by
  cases s
  cases t
  exact congrArg String.mk h

theorem string_length_eq (s : String) : s.length = s.data.length := rfl

theorem reprAux_small {n : Nat} (h : n < 10) : reprAux n = [Nat.digitChar n] := by
  unfold reprAux
  simp [h]

theorem reprAux_large {n : Nat} (h : ¬ n < 10) :
    reprAux n = reprAux (n / 10) ++ [Nat.digitChar (n % 10)] := by
  conv_lhs => unfold reprAux
  simp [h]

theorem toDigitsCore_eq (fuel : Nat) : ∀ (n : Nat) (ds : List Char), n < fuel →
    Nat.toDigitsCore 10 fuel n ds = reprAux n ++ ds := by
  induction fuel with
  | zero => intro n ds h; omega
  | succ fuel ih =>
    intro n ds h
    unfold Nat.toDigitsCore
    by_cases h10 : n / 10 = 0
    · have hn : n < 10 := by omega
      rw [if_pos h10, reprAux_small hn, Nat.mod_eq_of_lt hn]
      simp
    · rw [if_neg h10, ih (n / 10) _ (by omega)]
      conv_rhs => rw [reprAux_large (show ¬ n < 10 by omega)]
      simp

theorem repr_data (n : Nat) : (Nat.repr n).data = reprAux n := by
  show (Nat.toDigits 10 n).asString.data = reprAux n
  unfold Nat.toDigits
  rw [toDigitsCore_eq (n + 1) n [] (Nat.lt_succ_self n)]
  simp [List.asString]

theorem digitChar_facts : ∀ d : Fin 10,
    ('0' ≤ Nat.digitChar d.val ∧ Nat.digitChar d.val ≤ '9') ∧
    (Nat.digitChar d.val).toNat - '0'.toNat = d.val ∧
    Nat.digitChar d.val ≠ ',' ∧ Nat.digitChar d.val ≠ '\n' ∧
    Nat.digitChar d.val ≠ '-' := by decide

theorem reprAux_digits (n : Nat) : ∀ c ∈ reprAux n, ∃ d : Fin 10, c = Nat.digitChar d.val := by
  induction n using Nat.strong_induction_on with
  | _ n ih =>
    by_cases h : n < 10
    · rw [reprAux_small h]
      intro c hc
      simp only [List.mem_singleton] at hc
      exact ⟨⟨n, h⟩, hc⟩
    · rw [reprAux_large h]
      intro c hc
      rcases List.mem_append.mp hc with h1 | h2
      · exact ih (n / 10) (by omega) c h1
      · simp only [List.mem_singleton] at h2
        exact ⟨⟨n % 10, by omega⟩, h2⟩

theorem reprAux_ne_nil (n : Nat) : reprAux n ≠ [] := by
  by_cases h : n < 10
  · rw [reprAux_small h]; simp
  · rw [reprAux_large h]; simp

theorem parseNatFrom_append (xs ys : List Char) : ∀ acc,
    parseNatFrom acc (xs ++ ys) =
      match parseNatFrom acc xs with
      | some a => parseNatFrom a ys
      | none => none := by
  induction xs with
  | nil => intro acc; simp [parseNatFrom]
  | cons c cs ih =>
    intro acc
    simp only [List.cons_append, parseNatFrom]
    by_cases h : '0' ≤ c ∧ c ≤ '9'
    · rw [if_pos h, if_pos h]
      exact ih _
    · rw [if_neg h, if_neg h]

theorem parseNatFrom_reprAux (n : Nat) : ∀ acc,
    parseNatFrom acc (reprAux n) = some (acc * 10 ^ (reprAux n).length + n) := by
  induction n using Nat.strong_induction_on with
  | _ n ih =>
    intro acc
    by_cases h : n < 10
    · have hd := digitChar_facts ⟨n, h⟩
      rw [reprAux_small h]
      simp only [parseNatFrom, if_pos hd.1, hd.2.1, List.length_singleton, pow_one]
    · rw [reprAux_large h, parseNatFrom_append]
      rw [ih (n / 10) (by omega) acc]
      have hd := digitChar_facts ⟨n % 10, by omega⟩
      simp only [parseNatFrom, if_pos hd.1, hd.2.1, List.length_append,
        List.length_singleton]
      congr 1
      calc (acc * 10 ^ (reprAux (n / 10)).length + n / 10) * 10 + n % 10
          = acc * (10 ^ (reprAux (n / 10)).length * 10) + (n / 10 * 10 + n % 10) := by
            ring
        _ = acc * 10 ^ ((reprAux (n / 10)).length + 1) + n := by
            rw [pow_succ]
            congr 1
            omega

theorem parseNat_repr (n : Nat) : parseNat (Nat.repr n).data = some n := by
  rw [repr_data]
  obtain ⟨c, cs, hc⟩ : ∃ c cs, reprAux n = c :: cs := by
    cases h : reprAux n with
    | nil => exact absurd h (reprAux_ne_nil n)
    | cons c cs => exact ⟨c, cs, rfl⟩
  rw [hc]
  show parseNatFrom 0 (c :: cs) = some n
  rw [← hc, parseNatFrom_reprAux n 0]
  simp

/-! ### Lemmas: zero padding -/

theorem repr_length_small {n : Nat} (h : n < 10) : (Nat.repr n).length = 1 := by
  rw [string_length_eq, repr_data, reprAux_small h]
  rfl

theorem repr_length_two {n : Nat} (h1 : 10 ≤ n) (h2 : n < 100) :
    (Nat.repr n).length = 2 := by
  rw [string_length_eq, repr_data, reprAux_large (by omega), reprAux_small (by omega)]
  rfl

theorem padTwo_of_length_two {s : String} (h : s.length = 2) : padTwo s = s := by
  unfold padTwo
  rw [if_pos (by omega)]

theorem zeroPad2_length {n : Nat} (h : n < 100) : (zeroPad2 n).length = 2 := by
  unfold zeroPad2
  by_cases h10 : n < 10
  · rw [if_pos h10, string_length_eq]
    rw [show ("0" ++ Nat.repr n).data = '0' :: (Nat.repr n).data from by
      simp [String.data_append]]
    rw [List.length_cons, ← string_length_eq, repr_length_small h10]
  · rw [if_neg h10]
    exact repr_length_two (by omega) h

theorem padTwo_repr {n : Nat} (h : n < 100) : padTwo (Nat.repr n) = zeroPad2 n := by
  by_cases h10 : n < 10
  · apply string_data_inj
    unfold padTwo zeroPad2
    rw [if_neg (by rw [repr_length_small h10]; omega), if_pos h10]
    rw [repr_length_small h10]
    simp [String.data_append]
  · have h2 := repr_length_two (by omega) h
    unfold zeroPad2
    rw [if_neg h10]
    exact padTwo_of_length_two h2

theorem padTwo_zeroPad2 {n : Nat} (h : n < 100) : padTwo (zeroPad2 n) = zeroPad2 n :=
  padTwo_of_length_two (zeroPad2_length h)

theorem digit_clean {c : Char} (h : ∃ d : Fin 10, c = Nat.digitChar d.val) :
    c ≠ ',' ∧ c ≠ '\n' ∧ c ≠ '-' := by
  obtain ⟨d, rfl⟩ := h
  exact ⟨(digitChar_facts d).2.2.1, (digitChar_facts d).2.2.2.1, (digitChar_facts d).2.2.2.2⟩

theorem zeroPad2_digits {n : Nat} :
    ∀ c ∈ (zeroPad2 n).data, ∃ d : Fin 10, c = Nat.digitChar d.val := by
  intro c hc
  unfold zeroPad2 at hc
  by_cases h10 : n < 10
  · rw [if_pos h10] at hc
    rw [show ("0" ++ Nat.repr n).data = '0' :: (Nat.repr n).data from by
      simp [String.data_append]] at hc
    rcases List.mem_cons.mp hc with rfl | hc
    · exact ⟨⟨0, by omega⟩, rfl⟩
    · rw [repr_data] at hc
      exact reprAux_digits n c hc
  · rw [if_neg h10, repr_data] at hc
    exact reprAux_digits n c hc

theorem padTwo_chars {s : String} : ∀ c ∈ (padTwo s).data, c = '0' ∨ c ∈ s.data := by
  intro c hc
  unfold padTwo at hc
  by_cases h : 2 ≤ s.length
  · rw [if_pos h] at hc
    exact .inr hc
  · rw [if_neg h] at hc
    rcases List.mem_append.mp hc with h1 | h2
    · exact .inl (List.eq_of_mem_replicate h1)
    · exact .inr h2

/-! ### Lemmas: splitting and joining lines -/

theorem splitOnChar_ne_nil (sep : Char) (cs : List Char) : splitOnChar sep cs ≠ [] := by
  cases cs with
  | nil => simp [splitOnChar]
  | cons c cs =>
    unfold splitOnChar
    by_cases h : c = sep
    · simp [h]
    · rw [if_neg h]
      cases hs : splitOnChar sep cs <;> simp

theorem splitOnChar_not_mem {sep : Char} {cs : List Char} (h : sep ∉ cs) :
    splitOnChar sep cs = [cs] := by
  induction cs with
  | nil => rfl
  | cons c cs ih =>
    have hc : ¬ c = sep := fun e => h (by simp [e])
    have hcs : sep ∉ cs := fun m => h (List.mem_cons_of_mem _ m)
    unfold splitOnChar
    rw [if_neg hc, ih hcs]

theorem splitOnChar_cons_ne {sep c : Char} (h : ¬ c = sep) (cs : List Char) :
    splitOnChar sep (c :: cs) =
      match splitOnChar sep cs with
      | [] => [[c]]
      | chunk :: chunks => (c :: chunk) :: chunks := by
  conv_lhs => unfold splitOnChar
  rw [if_neg h]

theorem splitOnChar_append {sep : Char} {pre : List Char} (h : sep ∉ pre) (rest : List Char) :
    splitOnChar sep (pre ++ sep :: rest) = pre :: splitOnChar sep rest := by
  induction pre with
  | nil => simp [splitOnChar]
  | cons c cs ih =>
    have hc : ¬ c = sep := fun e => h (by simp [e])
    have hcs : sep ∉ cs := fun m => h (List.mem_cons_of_mem _ m)
    simp only [List.cons_append]
    rw [splitOnChar_cons_ne hc, ih hcs]

theorem joinLines_cons {l : String} {ls : List String} (h : ls ≠ []) :
    joinLines (l :: ls) = l ++ "\n" ++ joinLines ls := by
  cases ls with
  | nil => exact absurd rfl h
  | cons a as => rfl

theorem joinLines_split {lines : List String} (hne : lines ≠ [])
    (hclean : ∀ l ∈ lines, '\n' ∉ l.data) :
    splitOnChar '\n' (joinLines lines).data = lines.map String.data := by
  induction lines with
  | nil => exact absurd rfl hne
  | cons l ls ih =>
    cases ls with
    | nil => exact splitOnChar_not_mem (hclean l (by simp))
    | cons a as =>
      rw [joinLines_cons (by simp)]
      rw [show (l ++ "\n" ++ joinLines (a :: as)).data
            = l.data ++ '\n' :: (joinLines (a :: as)).data from by
        simp [String.data_append]]
      rw [splitOnChar_append (hclean l (by simp))]
      rw [ih (by simp) (fun x hx => hclean x (List.mem_cons_of_mem _ hx))]
      rfl

theorem intercalate_go_append (s x : String) : ∀ (as : List String) (y : String),
    String.intercalate.go (x ++ y) s as = x ++ String.intercalate.go y s as := by
  intro as
  induction as with
  | nil => intro y; rfl
  | cons a as ih =>
    intro y
    show String.intercalate.go (x ++ y ++ s ++ a) s as
        = x ++ String.intercalate.go (y ++ s ++ a) s as
    rw [String.append_assoc, String.append_assoc, ih, String.append_assoc y s a]

theorem joinLines_eq_intercalate : ∀ ls : List String,
    joinLines ls = String.intercalate "\n" ls := by
  intro ls
  cases ls with
  | nil => rfl
  | cons l ls =>
    show joinLines (l :: ls) = String.intercalate.go l "\n" ls
    induction ls generalizing l with
    | nil => rfl
    | cons a as ih =>
      rw [joinLines_cons (by simp)]
      show l ++ "\n" ++ joinLines (a :: as) = String.intercalate.go (l ++ "\n" ++ a) "\n" as
      rw [ih a, intercalate_go_append "\n" (l ++ "\n") as a]

/-! ### Lemmas: expansion -/

theorem mem_expandedAlerts {e : ExpandedAlert} : ∀ {alerts : List Alert},
    e ∈ expandedAlerts alerts → ∃ a ∈ alerts, e ∈ expandAlert a := by
  intro alerts
  induction alerts with
  | nil => simp [expandedAlerts]
  | cons a as ih =>
    intro h
    rcases List.mem_append.mp h with h1 | h2
    · exact ⟨a, by simp, h1⟩
    · obtain ⟨b, hb, he⟩ := ih h2
      exact ⟨b, by simp [hb], he⟩

theorem expandAlert_fields {a : Alert} {e : ExpandedAlert} (he : e ∈ expandAlert a) :
    e.type = (if a.type = "Reminder" then "r" else "m") ∧
    e.hour = padTwo a.hour ∧ e.minute = padTwo a.minute ∧ e.message = a.message ∧
    ((a.isEveryday = true ∧ ∃ d < 7, e.day = Nat.repr d) ∨
     (a.isEveryday = false ∧ e.day ∈ a.selectedDays)) := by
  simp only [expandAlert] at he
  by_cases hev : a.isEveryday = true
  · rw [if_pos hev] at he
    simp only [List.mem_map, List.mem_range] at he
    obtain ⟨d, hd, rfl⟩ := he
    exact ⟨rfl, rfl, rfl, rfl, .inl ⟨hev, d, hd, rfl⟩⟩
  · rw [if_neg hev] at he
    simp only [List.mem_map] at he
    obtain ⟨d, hd, rfl⟩ := he
    exact ⟨rfl, rfl, rfl, rfl, .inr ⟨by simpa using hev, hd⟩⟩

theorem expandAlert_length (a : Alert) :
    (expandAlert a).length = if a.isEveryday then 7 else a.selectedDays.length := by
  simp only [expandAlert]
  by_cases hev : a.isEveryday = true
  · rw [if_pos hev, if_pos hev]
    simp
  · rw [if_neg hev, if_neg hev]
    simp

theorem expandedAlerts_length (alerts : List Alert) :
    (expandedAlerts alerts).length = totalExpandedSpec alerts := by
  induction alerts with
  | nil => rfl
  | cons a as ih =>
    simp only [expandedAlerts, totalExpandedSpec, List.length_append, List.map_cons,
      List.sum_cons, ih, expandAlert_length]

theorem getTotalExpandedAlerts_eq (alerts : List Alert) :
    getTotalExpandedAlerts alerts = totalExpandedSpec alerts := by
  induction alerts with
  | nil => rfl
  | cons a as ih =>
    simp only [getTotalExpandedAlerts, totalExpandedSpec, List.map_cons, List.sum_cons, ih]

/-! ### Lemmas: field shape under valid configurations -/

theorem digits_clean {cs : List Char}
    (h : ∀ c ∈ cs, ∃ d : Fin 10, c = Nat.digitChar d.val) :
    ',' ∉ cs ∧ '\n' ∉ cs ∧ '-' ∉ cs :=
  ⟨fun hc => (digit_clean (h _ hc)).1 rfl,
   fun hc => (digit_clean (h _ hc)).2.1 rfl,
   fun hc => (digit_clean (h _ hc)).2.2 rfl⟩

theorem valid_expanded_fields {data : FormData} (hv : ValidConfig data) :
    ∀ e ∈ expandedAlerts data.alerts,
      (∃ h ≤ 23, e.hour = zeroPad2 h) ∧ (∃ m ≤ 59, e.minute = zeroPad2 m) ∧
      (∃ d ≤ 6, e.day = Nat.repr d) := by
  intro e he
  obtain ⟨a, ha, hea⟩ := mem_expandedAlerts he
  obtain ⟨-, -, -, hdaysok, ⟨h, hle, hh⟩, ⟨m, mle, hm⟩⟩ := hv.2.2.2.2.2.2.2 a ha
  obtain ⟨-, hhour, hminute, -, hday⟩ := expandAlert_fields hea
  refine ⟨⟨h, hle, ?_⟩, ⟨m, mle, ?_⟩, ?_⟩
  · rw [hhour]
    rcases hh with hh | hh
    · rw [hh]
      exact padTwo_repr (by omega)
    · rw [hh]
      exact padTwo_zeroPad2 (by omega)
  · rw [hminute]
    rcases hm with hm | hm
    · rw [hm]
      exact padTwo_repr (by omega)
    · rw [hm]
      exact padTwo_zeroPad2 (by omega)
  · rcases hday with ⟨-, d, hd7, hdy⟩ | ⟨-, hmem⟩
    · exact ⟨d, by omega, hdy⟩
    · exact hdaysok e.day hmem

theorem valid_expanded_clean {data : FormData} (hv : ValidConfig data)
    (hmsg : ∀ a ∈ data.alerts, cleanText a.message) :
    ∀ e ∈ expandedAlerts data.alerts,
      cleanText e.type ∧ cleanText e.day ∧ cleanText e.hour ∧ cleanText e.minute ∧
      cleanText e.message := by
  intro e he
  obtain ⟨⟨h, hle, hhour⟩, ⟨m, mle, hminute⟩, ⟨d, hd6, hday⟩⟩ :=
    valid_expanded_fields hv e he
  obtain ⟨a, ha, hea⟩ := mem_expandedAlerts he
  obtain ⟨htype, -, -, hmsge, -⟩ := expandAlert_fields hea
  refine ⟨?_, ?_, ?_, ?_, ?_⟩
  · rw [htype]
    by_cases hr : a.type = "Reminder"
    · rw [if_pos hr]
      exact ⟨by decide, by decide⟩
    · rw [if_neg hr]
      exact ⟨by decide, by decide⟩
  · rw [hday, cleanText, repr_data]
    have := digits_clean (reprAux_digits d)
    exact ⟨this.1, this.2.1⟩
  · rw [hhour, cleanText]
    have := digits_clean (zeroPad2_digits (n := h))
    exact ⟨this.1, this.2.1⟩
  · rw [hminute, cleanText]
    have := digits_clean (zeroPad2_digits (n := m))
    exact ⟨this.1, this.2.1⟩
  · rw [hmsge]
    exact hmsg a ha

theorem recordLine_data (e : ExpandedAlert) :
    (recordLine e).data = e.type.data ++ ',' ::
      (e.day.data ++ ',' :: (e.hour.data ++ ',' :: (e.minute.data ++ ',' ::
        e.message.data))) := by
  have hcomma : ("," : String).data = [','] := rfl
  simp [recordLine, hcomma]

theorem contact_data (n p e : String) :
    (n ++ "," ++ p ++ "," ++ e).data = n.data ++ ',' :: (p.data ++ ',' :: e.data) := by
  have hcomma : ("," : String).data = [','] := rfl
  simp [hcomma]

theorem int_repr_pos {i : Int} (h : 1 ≤ i) :
    ∃ m : Nat, 1 ≤ m ∧ i = Int.ofNat m ∧ Int.repr i = Nat.repr m := by
  obtain ⟨m, rfl⟩ : ∃ m : Nat, i = Int.ofNat m :=
    ⟨i.toNat, (Int.toNat_of_nonneg (by omega)).symm⟩
  rw [Int.ofNat_eq_coe] at h
  refine ⟨m, by omega, rfl, rfl⟩

theorem formatLines_clean {data : FormData} (hv : ValidConfig data)
    (hname : cleanText data.name) (hphone : cleanText data.phone)
    (hemail : cleanText data.email) (hmed : cleanText data.medicalInfo)
    (hmsg : ∀ a ∈ data.alerts, cleanText a.message) :
    ∀ l ∈ formatLines data, '\n' ∉ l.data := by
  intro l hl
  rcases List.mem_cons.mp hl with rfl | hl
  · rw [repr_data]
    exact (digits_clean (reprAux_digits _)).2.1
  rcases List.mem_append.mp hl with hl | hl
  · obtain ⟨e, he, rfl⟩ := List.mem_map.mp hl
    obtain ⟨ht, hd, hh, hm, hmsge⟩ := valid_expanded_clean hv hmsg e he
    rw [recordLine_data]
    intro hc
    simp only [List.mem_append, List.mem_cons] at hc
    rcases hc with hc | hc | hc | hc | hc | hc | hc | hc | hc
    · exact ht.2 hc
    · exact absurd hc (by decide)
    · exact hd.2 hc
    · exact absurd hc (by decide)
    · exact hh.2 hc
    · exact absurd hc (by decide)
    · exact hm.2 hc
    · exact absurd hc (by decide)
    · exact hmsge.2 hc
  rcases List.mem_cons.mp hl with rfl | hl
  · rw [contact_data]
    intro hc
    simp only [List.mem_append, List.mem_cons] at hc
    rcases hc with hc | hc | hc | hc | hc
    · exact hname.2 hc
    · exact absurd hc (by decide)
    · exact hphone.2 hc
    · exact absurd hc (by decide)
    · exact hemail.2 hc
  rcases List.mem_cons.mp hl with rfl | hl
  · exact hmed.2
  rcases List.mem_cons.mp hl with rfl | hl
  · obtain ⟨m, -, -, hrepr⟩ := int_repr_pos hv.2.2.2.2.1
    rw [hrepr, repr_data]
    exact (digits_clean (reprAux_digits _)).2.1
  · exact absurd hl (List.not_mem_nil _)

theorem reprAux_getLast (n : Nat) :
    ∃ d : Fin 10, (reprAux n).getLast? = some (Nat.digitChar d.val) := by
  by_cases h : n < 10
  · rw [reprAux_small h]
    exact ⟨⟨n, h⟩, rfl⟩
  · rw [reprAux_large h]
    exact ⟨⟨n % 10, by omega⟩, List.getLast?_concat _⟩

theorem joinLines_last : ∀ (ls : List String) (l : String), l.data ≠ [] →
    (joinLines (ls ++ [l])).data ≠ [] ∧
    (joinLines (ls ++ [l])).data.getLast? = l.data.getLast? := by
  intro ls
  induction ls with
  | nil => exact fun l hl => ⟨hl, rfl⟩
  | cons x xs ih =>
    intro l hl
    rw [List.cons_append, joinLines_cons (by simp)]
    rw [show (x ++ "\n" ++ joinLines (xs ++ [l])).data
        = x.data ++ '\n' :: (joinLines (xs ++ [l])).data from by simp [String.data_append]]
    refine ⟨by simp, ?_⟩
    rw [List.getLast?_append]
    obtain ⟨hne, hlast⟩ := ih l hl
    obtain ⟨c, cs, hcs⟩ : ∃ c cs, (joinLines (xs ++ [l])).data = c :: cs := by
      cases hx : (joinLines (xs ++ [l])).data with
      | nil => exact absurd hx hne
      | cons c cs => exact ⟨c, cs, rfl⟩
    rw [hcs, List.getLast?_cons_cons, ← hcs, hlast]
    cases hx : l.data.getLast? with
    | none =>
      rw [hx] at hlast
      rw [hcs] at hlast
      exact absurd (List.getLast?_eq_none_iff.mp hlast) (by simp)
    | some c₂ => rfl

/-! ### Claim C1 -/

/-- C1: for every valid configuration, the serialized output is exactly the
lines — count, one `code,day,hour,minute,message` line per expanded record
with raw unescaped message, the `name,phone,email` line, the medical-info
text, and the decimal device id — joined by single newlines; the hour and
minute fields are two-digit zero-padded, the day unpadded, and the result
has no trailing newline. -/
theorem serializedOutputShape (data : FormData) (hv : ValidConfig data) :
    formatAlertData data = String.intercalate "\n"
      (Nat.repr (expandedAlerts data.alerts).length
        :: (expandedAlerts data.alerts).map
            (fun e => e.type ++ "," ++ e.day ++ "," ++ e.hour ++ "," ++
              e.minute ++ "," ++ e.message)
        ++ [data.name ++ "," ++ data.phone ++ "," ++ data.email,
            data.medicalInfo, Int.repr data.deviceId]) ∧
    (∀ e ∈ expandedAlerts data.alerts,
      (∃ h ≤ 23, e.hour = zeroPad2 h) ∧ (∃ m ≤ 59, e.minute = zeroPad2 m) ∧
      (∃ d ≤ 6, e.day = Nat.repr d)) ∧
    (formatAlertData data).data.getLast? ≠ some '\n' := by
  refine ⟨?_, valid_expanded_fields hv, ?_⟩
  · rw [formatAlertData, ← joinLines_eq_intercalate]
    rfl
  · have hshape : formatLines data =
        (Nat.repr (expandedAlerts data.alerts).length
          :: (expandedAlerts data.alerts).map recordLine
          ++ [data.name ++ "," ++ data.phone ++ "," ++ data.email, data.medicalInfo])
        ++ [Int.repr data.deviceId] := by
      simp [formatLines]
    obtain ⟨m, -, -, hrepr⟩ := int_repr_pos hv.2.2.2.2.1
    have hne : (Int.repr data.deviceId).data ≠ [] := by
      rw [hrepr, repr_data]
      exact reprAux_ne_nil m
    have hlast := (joinLines_last
      (Nat.repr (expandedAlerts data.alerts).length
        :: (expandedAlerts data.alerts).map recordLine
        ++ [data.name ++ "," ++ data.phone ++ "," ++ data.email, data.medicalInfo])
      (Int.repr data.deviceId) hne).2
    rw [formatAlertData, hshape, hlast, hrepr, repr_data]
    obtain ⟨d, hd⟩ := reprAux_getLast m
    rw [hd]
    intro hc
    exact (digit_clean ⟨d, rfl⟩).2.1 (Option.some.inj hc)

/-- The sample configuration satisfies the spec's data-model invariants. -/
theorem sampleData_valid : ValidConfig sampleData := by
  refine ⟨by decide, by decide, by decide, by decide, by decide, by decide, by decide, ?_⟩
  intro a ha
  rcases List.mem_cons.mp ha with rfl | ha
  · exact ⟨by decide, .inr rfl, .inl rfl, by simp [sampleEveryday],
      ⟨9, by omega, .inl rfl⟩, ⟨0, by omega, .inl rfl⟩⟩
  rcases List.mem_cons.mp ha with rfl | ha
  · refine ⟨by decide, .inl rfl, .inr (by decide), ?_, ⟨8, by omega, .inr rfl⟩,
      ⟨30, by omega, .inl rfl⟩⟩
    intro d hd
    rcases List.mem_cons.mp hd with rfl | hd
    · exact ⟨1, by omega, rfl⟩
    rcases List.mem_cons.mp hd with rfl | hd
    · exact ⟨3, by omega, rfl⟩
    · exact absurd hd (List.not_mem_nil _)
  · exact absurd ha (List.not_mem_nil _)

/-- Witness for C1 at the sample configuration. -/
theorem serializedOutputShape_wit :
    ValidConfig sampleData ∧
    (formatAlertData sampleData = String.intercalate "\n"
      (Nat.repr (expandedAlerts sampleData.alerts).length
        :: (expandedAlerts sampleData.alerts).map
            (fun e => e.type ++ "," ++ e.day ++ "," ++ e.hour ++ "," ++
              e.minute ++ "," ++ e.message)
        ++ [sampleData.name ++ "," ++ sampleData.phone ++ "," ++ sampleData.email,
            sampleData.medicalInfo, Int.repr sampleData.deviceId]) ∧
    (∀ e ∈ expandedAlerts sampleData.alerts,
      (∃ h ≤ 23, e.hour = zeroPad2 h) ∧ (∃ m ≤ 59, e.minute = zeroPad2 m) ∧
      (∃ d ≤ 6, e.day = Nat.repr d)) ∧
    (formatAlertData sampleData).data.getLast? ≠ some '\n') :=
  ⟨sampleData_valid, serializedOutputShape sampleData sampleData_valid⟩

/-! ### Claim C2 -/

/-- C2: for every alert with `isEveryday = true`, expansion emits exactly 7
records, one per weekday code 0–6 in ascending order, each carrying the same
category code, zero-padded hour, zero-padded minute, and message, regardless
of the content of `selectedDays`. -/
theorem everydayExpansion (a : Alert) (h : a.isEveryday = true) :
    (expandAlert a).length = 7 ∧
    ∀ i < 7, (expandAlert a)[i]? =
      some ⟨if a.type = "Reminder" then "r" else "m", Nat.repr i,
        padTwo a.hour, padTwo a.minute, a.message⟩ := by
  have hx : expandAlert a = (List.range 7).map
      (fun day => ⟨if a.type = "Reminder" then "r" else "m", Nat.repr day,
        padTwo a.hour, padTwo a.minute, a.message⟩) := by
    simp [expandAlert, h]
  constructor
  · rw [hx]
    simp
  · intro i hi
    rw [hx, List.getElem?_map, List.getElem?_range hi]
    rfl

/-- Witness for C2 at the concrete everyday alert of the sample data. -/
theorem everydayExpansion_wit :
    sampleEveryday.isEveryday = true ∧
    ((expandAlert sampleEveryday).length = 7 ∧
     ∀ i < 7, (expandAlert sampleEveryday)[i]? =
       some ⟨if sampleEveryday.type = "Reminder" then "r" else "m", Nat.repr i,
         padTwo sampleEveryday.hour, padTwo sampleEveryday.minute,
         sampleEveryday.message⟩) :=
  ⟨rfl, everydayExpansion sampleEveryday rfl⟩

/-! ### Claim C3 -/

/-- C3: for every alert with `isEveryday = false` and a non-empty
`selectedDays` collection, expansion emits exactly `|selectedDays|` records,
one per stored entry and in stored (insertion) order, each carrying that
entry's day code. -/
theorem selectedDaysExpansion (a : Alert) (h : a.isEveryday = false)
    (_hne : a.selectedDays ≠ []) :
    (expandAlert a).length = a.selectedDays.length ∧
    ∀ i : Nat, (expandAlert a)[i]? = (a.selectedDays[i]?).map
      (fun d => ⟨if a.type = "Reminder" then "r" else "m", d,
        padTwo a.hour, padTwo a.minute, a.message⟩) := by
  have hx : expandAlert a = a.selectedDays.map
      (fun d => ⟨if a.type = "Reminder" then "r" else "m", d,
        padTwo a.hour, padTwo a.minute, a.message⟩) := by
    simp [expandAlert, h]
  constructor
  · rw [hx]
    simp
  · intro i
    rw [hx, List.getElem?_map]

/-- Witness for C3 at the concrete two-day alert of the sample data. -/
theorem selectedDaysExpansion_wit :
    sampleTwoDay.isEveryday = false ∧ sampleTwoDay.selectedDays ≠ [] ∧
    ((expandAlert sampleTwoDay).length = sampleTwoDay.selectedDays.length ∧
     ∀ i : Nat, (expandAlert sampleTwoDay)[i]? = (sampleTwoDay.selectedDays[i]?).map
       (fun d => ⟨if sampleTwoDay.type = "Reminder" then "r" else "m", d,
         padTwo sampleTwoDay.hour, padTwo sampleTwoDay.minute, sampleTwoDay.message⟩)) :=
  ⟨rfl, by decide, selectedDaysExpansion sampleTwoDay rfl (by decide)⟩

/-! ### Claim C10 -/

/-- C10: the category-to-code mapping is decided solely by string equality
with "Reminder": an alert whose `type` equals "Reminder" yields code "r",
and every other `type` value yields code "m". -/
theorem categoryCodeMapping (a : Alert) (e : ExpandedAlert) (he : e ∈ expandAlert a) :
    e.type = if a.type = "Reminder" then "r" else "m" :=
  (expandAlert_fields he).1

/-- Witness for C10: a concrete record of a "Medicine" alert carries code "m". -/
theorem categoryCodeMapping_wit :
    (⟨"m", "0", "09", "00", "Take pill"⟩ : ExpandedAlert) ∈ expandAlert sampleEveryday ∧
    (⟨"m", "0", "09", "00", "Take pill"⟩ : ExpandedAlert).type =
      (if sampleEveryday.type = "Reminder" then "r" else "m") :=
  ⟨by decide, categoryCodeMapping sampleEveryday _ (by decide)⟩

/-! ### Claim C4 -/

/-- C4: the number on line 1 of the serialized output is the decimal
rendering of Σ over alerts of (7 if isEveryday else |selectedDays|), and
that sum also equals the number of expanded-record lines that follow it. -/
theorem headerCountMatches (data : FormData) :
    (formatLines data).head? = some (Nat.repr (totalExpandedSpec data.alerts)) ∧
    ((formatLines data).drop 1).take (totalExpandedSpec data.alerts)
        = (expandedAlerts data.alerts).map recordLine ∧
    ((expandedAlerts data.alerts).map recordLine).length = totalExpandedSpec data.alerts ∧
    (formatLines data).length = totalExpandedSpec data.alerts + 4 := by
  refine ⟨?_, ?_, ?_, ?_⟩
  · simp [formatLines, expandedAlerts_length]
  · show ((expandedAlerts data.alerts).map recordLine
        ++ [_, _, _]).take (totalExpandedSpec data.alerts)
        = (expandedAlerts data.alerts).map recordLine
    apply List.take_left'
    simp [expandedAlerts_length]
  · simp [expandedAlerts_length]
  · simp only [formatLines, List.length_cons, List.length_append, List.length_map,
      expandedAlerts_length]
    simp

/-! ### Claim C7 -/

/-- C7: a `deviceId` strictly below 1 or strictly above 100 is rejected by
the endpoint with a 400 validation error and no formatted output, while
`deviceId = 1` and `deviceId = 100` with otherwise valid fields are accepted
and encoded. -/
theorem deviceIdBoundary (data : FormData) :
    ((data.deviceId < 1 ∨ 100 < data.deviceId) → ∃ msg, POST data = .error msg 400) ∧
    (data.name ≠ "" → data.phone ≠ "" → data.email ≠ "" → data.medicalInfo ≠ "" →
      data.alerts ≠ [] → (data.deviceId = 1 ∨ data.deviceId = 100) →
      POST data = .success (formatAlertData data)) := by
  constructor
  · intro hout
    unfold POST
    by_cases h1 : data.name = "" ∨ data.phone = "" ∨ data.email = "" ∨
        data.medicalInfo = "" ∨ data.deviceId = 0
    · rw [if_pos h1]
      exact ⟨_, rfl⟩
    · rw [if_neg h1, if_pos hout]
      exact ⟨_, rfl⟩
  · intro hn hp he hm ha hid
    unfold POST
    rw [if_neg (by push_neg; exact ⟨hn, hp, he, hm, by omega⟩),
      if_neg (by omega),
      if_neg (fun hc => ha (List.length_eq_zero.mp hc))]

/-- Witness for C7: `deviceId = 200` is rejected and `deviceId = 1` is
accepted on the sample configuration. -/
theorem deviceIdBoundary_wit :
    (({ sampleData with deviceId := 200 } : FormData).deviceId < 1 ∨
      100 < ({ sampleData with deviceId := 200 } : FormData).deviceId) ∧
    (∃ msg, POST { sampleData with deviceId := 200 } = .error msg 400) ∧
    POST { sampleData with deviceId := 1 } =
      .success (formatAlertData { sampleData with deviceId := 1 }) :=
  ⟨by decide,
   (deviceIdBoundary { sampleData with deviceId := 200 }).1 (by decide),
   (deviceIdBoundary { sampleData with deviceId := 1 }).2 (by decide) (by decide)
     (by decide) (by decide) (by decide) (.inl rfl)⟩

/-! ### Claim C9 -/

/-- C9: a request passing the endpoint's three checks is always encoded —
`formatAlertData` is total — even when an alert violates the data-model
invariants: a non-everyday alert with an empty `selectedDays` set
contributes zero record lines, and the header count still matches the
number of record lines emitted. -/
theorem validatedRequestAlwaysEncodes (data : FormData)
    (hn : data.name ≠ "") (hp : data.phone ≠ "") (he : data.email ≠ "")
    (hm : data.medicalInfo ≠ "") (h1 : 1 ≤ data.deviceId) (h2 : data.deviceId ≤ 100)
    (ha : data.alerts ≠ []) :
    POST data = .success (formatAlertData data) ∧
    (∀ a ∈ data.alerts, a.isEveryday = false → a.selectedDays = [] → expandAlert a = []) ∧
    (formatLines data).head? = some (Nat.repr (expandedAlerts data.alerts).length) ∧
    (formatLines data).length = (expandedAlerts data.alerts).length + 4 := by
  refine ⟨?_, ?_, ?_, ?_⟩
  · unfold POST
    rw [if_neg (by push_neg; exact ⟨hn, hp, he, hm, by omega⟩),
      if_neg (by omega),
      if_neg (fun hc => ha (List.length_eq_zero.mp hc))]
  · intro a _ hev hdays
    simp [expandAlert, hev, hdays]
  · simp [formatLines]
  · simp only [formatLines, List.length_cons, List.length_append, List.length_map]
    simp

/-- A request that passes the endpoint checks while one alert violates the
day-set invariant. -/
def zeroDayData : FormData :=
  { sampleData with alerts := [⟨"Hydrate", "Reminder", false, [], "7", "5"⟩] }

/-- Witness for C9: a request whose only alert has `isEveryday = false` and
no selected days still encodes, with header count 0. -/
theorem validatedRequestAlwaysEncodes_wit :
    zeroDayData.name ≠ "" ∧
    (POST zeroDayData = .success (formatAlertData zeroDayData) ∧
     (∀ a ∈ zeroDayData.alerts,
        a.isEveryday = false → a.selectedDays = [] → expandAlert a = []) ∧
     (formatLines zeroDayData).head?
       = some (Nat.repr (expandedAlerts zeroDayData.alerts).length) ∧
     (formatLines zeroDayData).length = (expandedAlerts zeroDayData.alerts).length + 4) :=
  ⟨by decide,
   validatedRequestAlwaysEncodes zeroDayData (by decide) (by decide) (by decide)
     (by decide) (by decide) (by decide) (by decide)⟩

/-! ### Claim C6 -/

/-- C6: a submission containing an alert with an empty message, or a
non-everyday alert with an empty selected-day set, is rejected by the
client-side validation with a destructive toast; the result is never
`submitted`, so the encode endpoint — and with it `formatAlertData` — is
not invoked on such input. -/
theorem invalidAlertRejected (name phone email medicalInfo deviceId : String)
    (alerts : List ClientAlert)
    (h : ∃ a ∈ alerts, a.message = "" ∨ (a.isEveryday = false ∧ a.selectedDays = [])) :
    ∃ t d, handleSubmit name phone email medicalInfo deviceId alerts = .rejected t d := by
  have hfilter : 0 < (alerts.filter alertInvalid).length := by
    obtain ⟨a, ha, hcase⟩ := h
    have hinv : alertInvalid a = true := by
      unfold alertInvalid
      rcases hcase with hmsg | ⟨hev, hdays⟩
      · have hts : (jsTrim a.message == "") = true := by
          rw [hmsg]
          decide
        simp [hts]
      · simp [hev, hdays]
    exact List.length_pos.mpr
      (List.ne_nil_of_mem (List.mem_filter.mpr ⟨ha, hinv⟩))
  unfold handleSubmit
  repeat' split
  all_goals exact ⟨_, _, rfl⟩

/-- An alert definition whose message is empty. -/
def emptyMsgAlert : ClientAlert :=
  ⟨"a1", "", "Reminder", false, ["2"], "09", "00"⟩

/-- Witness for C6: a submission with one empty-message alert is rejected. -/
theorem invalidAlertRejected_wit :
    (∃ a ∈ [emptyMsgAlert],
      a.message = "" ∨ (a.isEveryday = false ∧ a.selectedDays = [])) ∧
    ∃ t d, handleSubmit "John Doe" "555-123-4567" "john@example.com" "notes" "5"
      [emptyMsgAlert] = .rejected t d :=
  ⟨⟨emptyMsgAlert, by simp, .inl rfl⟩,
   invalidAlertRejected "John Doe" "555-123-4567" "john@example.com" "notes" "5"
     [emptyMsgAlert] ⟨emptyMsgAlert, by simp, .inl rfl⟩⟩

/-! ### Claim C8 -/

/-- C8: when the persisted text fails to parse, loading neither throws nor
repairs anything — the error is logged, the displayed list stays empty, and
the stored data is left untouched. -/
theorem malformedStorageLoad (parse : String → Except String (List StoredDevice))
    (st : DbPageState) (s e : String)
    (hs : st.storage = some s) (hp : parse s = .error e) (hd : st.devices = []) :
    (loadDevices parse st).devices = [] ∧
    (loadDevices parse st).storage = st.storage ∧
    (loadDevices parse st).log = st.log ++ ["[v0] Error loading devices: " ++ e] := by
  simp only [loadDevices, hs, hp]
  simp_all

/-- Witness for C8 on a concrete malformed store. -/
theorem malformedStorageLoad_wit :
    (⟨some "not json", [], []⟩ : DbPageState).storage = some "not json" ∧
    (fun _ : String => (Except.error "Unexpected token" : Except String (List StoredDevice)))
      "not json" = .error "Unexpected token" ∧
    (⟨some "not json", [], []⟩ : DbPageState).devices = [] ∧
    ((loadDevices (fun _ => .error "Unexpected token") ⟨some "not json", [], []⟩).devices = [] ∧
     (loadDevices (fun _ => .error "Unexpected token") ⟨some "not json", [], []⟩).storage =
       (⟨some "not json", [], []⟩ : DbPageState).storage ∧
     (loadDevices (fun _ => .error "Unexpected token") ⟨some "not json", [], []⟩).log =
       (⟨some "not json", [], []⟩ : DbPageState).log ++
         ["[v0] Error loading devices: " ++ "Unexpected token"]) :=
  ⟨rfl, rfl, rfl,
   malformedStorageLoad (fun _ => .error "Unexpected token") ⟨some "not json", [], []⟩
     "not json" "Unexpected token" rfl rfl rfl⟩

/-! ### Lemmas: inverting the serializer -/

theorem recordLine_split {e : ExpandedAlert}
    (h1 : ',' ∉ e.type.data) (h2 : ',' ∉ e.day.data) (h3 : ',' ∉ e.hour.data)
    (h4 : ',' ∉ e.minute.data) (h5 : ',' ∉ e.message.data) :
    splitOnChar ',' (recordLine e).data =
      [e.type.data, e.day.data, e.hour.data, e.minute.data, e.message.data] := by
  rw [recordLine_data, splitOnChar_append h1, splitOnChar_append h2,
    splitOnChar_append h3, splitOnChar_append h4, splitOnChar_not_mem h5]

theorem parseRecord_recordLine {e : ExpandedAlert}
    (h1 : ',' ∉ e.type.data) (h2 : ',' ∉ e.day.data) (h3 : ',' ∉ e.hour.data)
    (h4 : ',' ∉ e.minute.data) (h5 : ',' ∉ e.message.data) :
    parseRecord (recordLine e).data = some e := by
  simp only [parseRecord, recordLine_split h1 h2 h3 h4 h5]

theorem mapOption_map_eq {α β : Type} (f : β → Option α) (g : α → β) (xs : List α)
    (h : ∀ x ∈ xs, f (g x) = some x) : mapOption f (xs.map g) = some xs := by
  induction xs with
  | nil => rfl
  | cons x xs ih =>
    have hx := h x (List.mem_cons_self x xs)
    have hxs := ih (fun y hy => h y (List.mem_cons_of_mem _ hy))
    simp only [List.map_cons, mapOption, hx, hxs]

theorem parseInt_repr {i : Int} (h1 : 1 ≤ i) :
    parseInt (Int.repr i).data = some i := by
  obtain ⟨m, -, rfl, hrepr⟩ := int_repr_pos h1
  rw [hrepr, repr_data]
  obtain ⟨c, cs, hc⟩ : ∃ c cs, reprAux m = c :: cs := by
    cases hx : reprAux m with
    | nil => exact absurd hx (reprAux_ne_nil m)
    | cons c cs => exact ⟨c, cs, rfl⟩
  have hcd : ∃ d : Fin 10, c = Nat.digitChar d.val :=
    reprAux_digits m c (by rw [hc]; exact List.mem_cons_self c cs)
  rw [hc]
  simp only [parseInt]
  rw [if_neg (digit_clean hcd).2.2, ← hc, ← repr_data, parseNat_repr]
  rfl

/-! ### Claim C5 -/

/-- C5: for every valid configuration whose name, phone, email, medical
info, and alert messages contain no comma and no newline, parsing the
serialized output per the spec's grammar recovers exactly the expanded
record list, the three contact fields, the medical info, and the device
identifier that produced it. -/
theorem roundTrip (data : FormData) (hv : ValidConfig data)
    (hname : cleanText data.name) (hphone : cleanText data.phone)
    (hemail : cleanText data.email) (hmed : cleanText data.medicalInfo)
    (hmsg : ∀ a ∈ data.alerts, cleanText a.message) :
    parseFormatted (formatAlertData data) =
      some ⟨expandedAlerts data.alerts, data.name, data.phone, data.email,
        data.medicalInfo, data.deviceId⟩ := by
  have hsplit : splitOnChar '\n' (joinLines (formatLines data)).data
      = (formatLines data).map String.data :=
    joinLines_split (by simp [formatLines])
      (formatLines_clean hv hname hphone hemail hmed hmsg)
  have hexplode : (formatLines data).map String.data
      = (Nat.repr (expandedAlerts data.alerts).length).data
        :: ((expandedAlerts data.alerts).map (fun e => (recordLine e).data)
          ++ [(data.name ++ "," ++ data.phone ++ "," ++ data.email).data,
              data.medicalInfo.data, (Int.repr data.deviceId).data]) := by
    simp only [formatLines, List.map_cons, List.map_append, List.map_map]
    rfl
  have hcount : parseNat (Nat.repr (expandedAlerts data.alerts).length).data
      = some (expandedAlerts data.alerts).length := parseNat_repr _
  have hlen : ((expandedAlerts data.alerts).map (fun e => (recordLine e).data)).length
      = (expandedAlerts data.alerts).length := by simp
  have htake : ((expandedAlerts data.alerts).map (fun e => (recordLine e).data)
        ++ [(data.name ++ "," ++ data.phone ++ "," ++ data.email).data,
            data.medicalInfo.data, (Int.repr data.deviceId).data]).take
          (expandedAlerts data.alerts).length
      = (expandedAlerts data.alerts).map (fun e => (recordLine e).data) :=
    List.take_left' hlen
  have hdrop : ((expandedAlerts data.alerts).map (fun e => (recordLine e).data)
        ++ [(data.name ++ "," ++ data.phone ++ "," ++ data.email).data,
            data.medicalInfo.data, (Int.repr data.deviceId).data]).drop
          (expandedAlerts data.alerts).length
      = [(data.name ++ "," ++ data.phone ++ "," ++ data.email).data,
          data.medicalInfo.data, (Int.repr data.deviceId).data] :=
    List.drop_left' hlen
  have hrecs : mapOption parseRecord
      ((expandedAlerts data.alerts).map (fun e => (recordLine e).data))
      = some (expandedAlerts data.alerts) := by
    apply mapOption_map_eq
    intro e he
    obtain ⟨ht, hd, hh, hm, hms⟩ := valid_expanded_clean hv hmsg e he
    exact parseRecord_recordLine ht.1 hd.1 hh.1 hm.1 hms.1
  have hcontact : splitOnChar ','
      (data.name ++ "," ++ data.phone ++ "," ++ data.email).data
      = [data.name.data, data.phone.data, data.email.data] := by
    rw [contact_data, splitOnChar_append hname.1, splitOnChar_append hphone.1,
      splitOnChar_not_mem hemail.1]
  have hdev : parseInt (Int.repr data.deviceId).data = some data.deviceId :=
    parseInt_repr hv.2.2.2.2.1
  simp only [parseFormatted, formatAlertData, hsplit, hexplode, hcount, htake, hdrop,
    hrecs, hcontact, hdev]

/-- Witness for C5: the sample configuration round-trips. -/
theorem roundTrip_wit :
    ValidConfig sampleData ∧ cleanText sampleData.name ∧ cleanText sampleData.phone ∧
    cleanText sampleData.email ∧ cleanText sampleData.medicalInfo ∧
    (∀ a ∈ sampleData.alerts, cleanText a.message) ∧
    parseFormatted (formatAlertData sampleData) =
      some ⟨expandedAlerts sampleData.alerts, sampleData.name, sampleData.phone,
        sampleData.email, sampleData.medicalInfo, sampleData.deviceId⟩ :=
  ⟨sampleData_valid, by decide, by decide, by decide, by decide, by decide,
   roundTrip sampleData sampleData_valid (by decide) (by decide) (by decide)
     (by decide) (by decide)⟩
